import Mathlib

/-!
# Verification of the AMI-IABP mortality risk calculator core

Shallow embedding of the scoring core of `streamlit_app.py`:
the feature assembler (defaulting, coercion, fixed feature order),
the risk scorer (probability path with decision-score sigmoid fallback),
and the threshold tiering of the resulting probability.

Numeric values carried by the form and the assembled vector are modelled
as rationals; the real-valued sigmoid of the scorer fallback is modelled
over the reals.
-/

namespace IABP

/-- A raw value held in the `inputs` dict of the app: either a string
(such as the "Yes"/"No" radio choice) or a number (Python ints and floats
are both modelled as rationals). -/
inductive RawValue where
  | str (s : String)
  | num (q : ℚ)
  deriving DecidableEq

/-- The `inputs` mapping of the app: a Python dict modelled as an
insertion-ordered association list with lookup at the first matching key. -/
abbrev RawDict := List (String × RawValue)

/-- Dict lookup: first binding of the key, if any. -/
def lookupR : RawDict → String → Option RawValue
  | [], _ => none
  | (k, v) :: t, f => if k = f then some v else lookupR t f

/-- One `inputs.setdefault(f, 0 if f in binary_feats else 0.0)` step
(line 105): keep the dict if `f` is already bound, otherwise append the
default binding (the int default `0` and the float default `0.0` are both
the rational `0`). -/
def setdefaultZero (d : RawDict) (f : String) : RawDict :=
  if (lookupR d f).isSome then d else d ++ [(f, RawValue.num 0)]

/-- Lines 104-105: fill every feature of `train_order` that is absent from
`inputs` with its type-appropriate zero default. -/
def fillDefaults (raw : RawDict) (order : List String) : RawDict :=
  order.foldl setdefaultZero raw

/-- Truncation toward zero of a rational, as Python's `int()` /
pandas `astype(int)` truncate floats. -/
def ratTrunc (q : ℚ) : ℤ :=
  if 0 ≤ q then ⌊q⌋ else ⌈q⌉

/-- Coercion of a raw value for a binary feature: the radio handler
(line 96) maps the choice "Yes" to 1 and any other choice to 0; a value
that is already numeric goes through `astype(int)` (line 112). -/
def coerceBinary : RawValue → ℚ
  | RawValue.str s => if s = "Yes" then 1 else 0
  | RawValue.num q => (ratTrunc q : ℚ)

/-- Parse a list of decimal digit characters into a natural number. -/
def parseNatAux : List Char → ℕ → Option ℕ
  | [], acc => some acc
  | c :: cs, acc =>
    if c.isDigit then parseNatAux cs (acc * 10 + (c.toNat - Char.toNat '0'))
    else none

/-- Parse a non-empty all-digit string into a natural number. -/
def parseNat (cs : List Char) : Option ℕ :=
  if cs.isEmpty then none else parseNatAux cs 0

/-- Split a character list at the first decimal point, if any. -/
def splitDot : List Char → List Char × Option (List Char)
  | [] => ([], none)
  | c :: cs =>
    if c = '.' then ([], some cs)
    else
      let r := splitDot cs
      (c :: r.1, r.2)

/-- Model of numeric string parsing as done by `pd.to_numeric`: optional
sign, integer digits, optional fractional digits; `none` on anything that
is not a decimal literal. -/
def parseDecimal (s : String) : Option ℚ :=
  let (sign, body) :=
    match s.toList with
    | '-' :: rest => ((-1 : ℚ), rest)
    | '+' :: rest => ((1 : ℚ), rest)
    | cs => ((1 : ℚ), cs)
  match splitDot body with
  | (intPart, none) => (parseNat intPart).map (fun n => sign * (n : ℚ))
  | (intPart, some fracPart) =>
    match parseNat intPart, parseNat fracPart with
    | some n, some m =>
      some (sign * ((n : ℚ) + (m : ℚ) / (10 ^ fracPart.length)))
    | _, _ => none

/-- Coercion of a raw value for a continuous feature, as
`pd.to_numeric(X[f], errors = "coerce").fillna(0.0)` (line 112): numbers
pass through, numeric strings are parsed, anything unparsable becomes NaN
and is then filled with `0.0`. -/
def coerceContinuous : RawValue → ℚ
  | RawValue.num q => q
  | RawValue.str s => (parseDecimal s).getD 0

/-- Per-column coercion of line 112: binary features via `astype(int)`
(with the radio "Yes"/"No" mapping for string values), continuous features
via `to_numeric` with NaN filled by `0.0`. -/
def coerceFeat (binary : List String) (f : String) (v : RawValue) : ℚ :=
  if f ∈ binary then coerceBinary v else coerceContinuous v

/-- Lines 104-112: the feature assembler. Fill defaults into the dict,
read one value per feature of `train_order` in order (`inputs.get(f, 0)`,
line 110), and coerce each column by its feature kind (lines 111-112). -/
def assembleRow (raw : RawDict) (order : List String) (binary : List String) :
    List ℚ :=
  order.map
    (fun f => coerceFeat binary f ((lookupR (fillDefaults raw order) f).getD (RawValue.num 0)))

/-- The value the assembled vector holds for feature `f`: the coercion of
the supplied raw value, or of the zero default when `f` is absent. -/
def featureValue (raw : RawDict) (binary : List String) (f : String) : ℚ :=
  coerceFeat binary f ((lookupR raw f).getD (RawValue.num 0))

/-- The three risk tiers of the badge (lines 120-125). -/
inductive Tier where
  | low
  | inter
  | high
  deriving DecidableEq

/-- Rank of a tier in the order Low < Intermediate < High. -/
def Tier.rank : Tier → ℕ
  | Tier.low => 0
  | Tier.inter => 1
  | Tier.high => 2

/-- Lines 120-125: the tiering of the risk probability.
`risk < thr_low` gives Low, `risk < thr_high` gives Intermediate,
otherwise High. -/
def tier (p lo hi : ℚ) : Tier :=
  if p < lo then Tier.low
  else if p < hi then Tier.inter
  else Tier.high

/-- Why the primary probability call failed: the model lacks the
capability (Python `AttributeError` on a missing `predict_proba`), or any
other runtime failure of the call. -/
inductive PredictErr where
  | notSupported
  | runtimeFailure
  deriving DecidableEq

/-- The error the scorer itself can surface: line 117 reads
`decision_function` with `getattr`, which raises when the model does not
have it, and that exception is not caught. -/
inductive ScoreErr where
  | noDecisionFunction
  deriving DecidableEq

/-- The loaded model, as the scorer uses it: a probability interface that
may fail, and an optional raw decision-score interface. -/
structure SModel where
  predict_proba : List ℝ → Except PredictErr ℝ
  decision_function : Option (List ℝ → ℝ)

/-- The logistic transform of line 118: `1 / (1 + exp (-x))`. -/
noncomputable def sigmoid (x : ℝ) : ℝ :=
  1 / (1 + Real.exp (-x))

/-- Lines 114-118: the scorer. Try `predict_proba`; on ANY exception fall
back to `decision_function` and the sigmoid; the fallback itself errors
only when `decision_function` is absent. -/
noncomputable def score (m : SModel) (v : List ℝ) : Except ScoreErr ℝ :=
  match m.predict_proba v with
  | Except.ok p => Except.ok p
  | Except.error _ =>
    match m.decision_function with
    | some df => Except.ok (sigmoid (df v))
    | none => Except.error ScoreErr.noDecisionFunction

/-- A model whose probability call fails with a runtime failure that is
not a missing capability, while a decision-score interface is present. -/
noncomputable def cmBad : SModel where
  predict_proba := fun _ => Except.error PredictErr.runtimeFailure
  decision_function := some (fun _ => 0)

/-- A model that always reports probability `1/2` through the primary
interface. -/
noncomputable def cmOk : SModel where
  predict_proba := fun _ => Except.ok (1 / 2)
  decision_function := none

/-! ## Helper lemmas -/

theorem lookupR_append_of_some {d l : RawDict} {f : String} {v : RawValue}
    (h : lookupR d f = some v) : lookupR (d ++ l) f = some v := by
  induction d with
  | nil => simp [lookupR] at h
  | cons kv t ih =>
    obtain ⟨k, w⟩ := kv
    by_cases hk : k = f
    · simp only [lookupR, if_pos hk] at h ⊢
      exact h
    · simp only [lookupR, if_neg hk] at h ⊢
      exact ih h

theorem lookupR_append_of_none {d : RawDict} {f : String} (l : RawDict)
    (h : lookupR d f = none) : lookupR (d ++ l) f = lookupR l f := by
  induction d with
  | nil => simp
  | cons kv t ih =>
    obtain ⟨k, w⟩ := kv
    by_cases hk : k = f
    · simp [lookupR, hk] at h
    · simp only [lookupR, if_neg hk] at h ⊢
      exact ih h

theorem lookupR_setdefaultZero_of_some {d : RawDict} {f : String} {v : RawValue}
    (g : String) (h : lookupR d f = some v) :
    lookupR (setdefaultZero d g) f = some v := by
  unfold setdefaultZero
  by_cases hg : (lookupR d g).isSome
  · simp only [if_pos hg]
    exact h
  · simp only [if_neg hg]
    exact lookupR_append_of_some h

theorem setdefaultZero_getD (d : RawDict) (g f : String) :
    (lookupR (setdefaultZero d g) f).getD (RawValue.num 0) =
      (lookupR d f).getD (RawValue.num 0) := by
  unfold setdefaultZero
  by_cases hg : (lookupR d g).isSome
  · simp only [if_pos hg]
  · simp only [if_neg hg]
    cases hf : lookupR d f with
    | some v => simp [lookupR_append_of_some hf]
    | none =>
      rw [lookupR_append_of_none _ hf]
      by_cases hgf : g = f
      · simp [lookupR, hgf]
      · simp [lookupR, hgf]

theorem fillDefaults_getD (raw : RawDict) (order : List String) (f : String) :
    (lookupR (fillDefaults raw order) f).getD (RawValue.num 0) =
      (lookupR raw f).getD (RawValue.num 0) := by
  induction order generalizing raw with
  | nil => rfl
  | cons g t ih =>
    show (lookupR (fillDefaults (setdefaultZero raw g) t) f).getD _ = _
    rw [ih, setdefaultZero_getD]

theorem lookupR_fillDefaults_of_some {raw : RawDict} {f : String} {v : RawValue}
    (order : List String) (h : lookupR raw f = some v) :
    lookupR (fillDefaults raw order) f = some v := by
  induction order generalizing raw with
  | nil => exact h
  | cons g t ih =>
    exact ih (lookupR_setdefaultZero_of_some g h)

theorem lookupR_setdefaultZero_ne {raw : RawDict} {a g : String} (hag : a ≠ g) :
    lookupR (setdefaultZero raw a) g = lookupR raw g := by
  unfold setdefaultZero
  by_cases ha : (lookupR raw a).isSome
  · rw [if_pos ha]
  · rw [if_neg ha]
    cases hr : lookupR raw g with
    | some u => exact lookupR_append_of_some hr
    | none =>
      rw [lookupR_append_of_none _ hr]
      simp [lookupR, hag]

theorem lookupR_fillDefaults_of_none_mem {raw : RawDict} {g : String}
    (order : List String) (hmem : g ∈ order) (h : lookupR raw g = none) :
    lookupR (fillDefaults raw order) g = some (RawValue.num 0) := by
  induction order generalizing raw with
  | nil => simp at hmem
  | cons a t ih =>
    show lookupR (fillDefaults (setdefaultZero raw a) t) g = _
    by_cases hag : a = g
    · have hset : lookupR (setdefaultZero raw a) g = some (RawValue.num 0) := by
        subst hag
        simp [setdefaultZero, h, lookupR_append_of_none, lookupR]
      exact lookupR_fillDefaults_of_some t hset
    · have hmem' : g ∈ t := by
        cases hmem with
        | head => exact absurd rfl hag
        | tail _ hm => exact hm
      refine ih hmem' ?_
      rw [lookupR_setdefaultZero_ne hag]
      exact h

theorem assembleRow_eq_map (raw : RawDict) (order binary : List String) :
    assembleRow raw order binary = order.map (featureValue raw binary) := by
  unfold assembleRow featureValue
  have h : ∀ f ∈ order,
      coerceFeat binary f ((lookupR (fillDefaults raw order) f).getD (RawValue.num 0)) =
        coerceFeat binary f ((lookupR raw f).getD (RawValue.num 0)) := by
    intro f _
    rw [fillDefaults_getD]
  exact List.map_congr_left h

theorem featureValue_nil (binary : List String) (f : String) :
    featureValue [] binary f = 0 := by
  by_cases h : f ∈ binary <;>
    simp [featureValue, lookupR, coerceFeat, h, coerceBinary, coerceContinuous, ratTrunc]

theorem sigmoid_mem_unit (x : ℝ) : 0 ≤ sigmoid x ∧ sigmoid x ≤ 1 := by
  unfold sigmoid
  have hpos : (0 : ℝ) < 1 + Real.exp (-x) := by
    have := Real.exp_pos (-x)
    linarith
  constructor
  · exact div_nonneg zero_le_one hpos.le
  · rw [div_le_one hpos]
    have := Real.exp_pos (-x)
    linarith

/-! ## Claim theorems -/

/-- Claim C1: for every raw input mapping, the assembled vector has exactly
one entry per name of `train_order`, in exactly that order — it is the map
of the per-feature value over the schema order — and its length equals the
schema feature count, regardless of which fields are present. -/
theorem assembled_vector_matches_schema_order (raw : RawDict)
    (order binary : List String) :
    assembleRow raw order binary = order.map (featureValue raw binary) ∧
    (assembleRow raw order binary).length = order.length := by
  refine ⟨assembleRow_eq_map raw order binary, ?_⟩
  unfold assembleRow
  exact List.length_map _ _

/-- Claim C2: for thresholds with `thr_low < thr_high`, the tier is Low iff
`p < thr_low`, Intermediate iff `thr_low ≤ p < thr_high`, High iff
`p ≥ thr_high`; in particular `tier thr_low = Intermediate` and
`tier thr_high = High` (boundary values belong to the tier above). -/
theorem tier_halfopen_boundaries (p lo hi : ℚ) (h : lo < hi) :
    (tier p lo hi = Tier.low ↔ p < lo) ∧
    (tier p lo hi = Tier.inter ↔ lo ≤ p ∧ p < hi) ∧
    (tier p lo hi = Tier.high ↔ hi ≤ p) ∧
    tier lo lo hi = Tier.inter ∧
    tier hi lo hi = Tier.high := by
  refine ⟨?_, ?_, ?_, ?_, ?_⟩ <;> unfold tier <;> split_ifs <;>
    first
      | rfl
      | linarith
      | (simp_all <;> try intros
         all_goals linarith)

theorem tier_halfopen_boundaries_witness :
    (0 : ℚ) < 1 ∧ tier (0 : ℚ) 0 1 = Tier.inter ∧ tier (1 : ℚ) 0 1 = Tier.high :=
  ⟨by decide, (tier_halfopen_boundaries 0 0 1 (by decide)).2.2.2.1,
    (tier_halfopen_boundaries 1 0 1 (by decide)).2.2.2.2⟩

/-- Claim C4: for thresholds `0 ≤ thr_low < thr_high ≤ 1`, the tier of any
probability is exactly one of Low, Intermediate, High, and the tier is
monotone non-decreasing in the probability under Low < Intermediate < High. -/
theorem tier_total_and_monotone (lo hi : ℚ) (h0 : 0 ≤ lo) (hlh : lo < hi)
    (h1 : hi ≤ 1) :
    (∀ p : ℚ,
      tier p lo hi = Tier.low ∨ tier p lo hi = Tier.inter ∨ tier p lo hi = Tier.high) ∧
    (∀ p q : ℚ, p ≤ q → (tier p lo hi).rank ≤ (tier q lo hi).rank) := by
  constructor
  · intro p
    unfold tier
    split_ifs <;> simp
  · intro p q hpq
    unfold tier
    split_ifs <;> simp [Tier.rank] <;> linarith

theorem tier_total_and_monotone_witness :
    (tier (0 : ℚ) 0 1 = Tier.low ∨ tier (0 : ℚ) 0 1 = Tier.inter ∨
      tier (0 : ℚ) 0 1 = Tier.high) ∧
    (tier (0 : ℚ) 0 1).rank ≤ (tier (1 : ℚ) 0 1).rank :=
  ⟨(tier_total_and_monotone 0 1 (by decide) (by decide) (by decide)).1 0,
    (tier_total_and_monotone 0 1 (by decide) (by decide) (by decide)).2 0 1 (by decide)⟩

/-- Claim C5: a binary feature supplied as "Yes" is coerced to 1 and as
"No" to 0; on the schema with features age, beta-blocker-use (binary) and
the inputs age 70, beta-blocker-use "Yes", the assembled vector is
`[70, 1]`. -/
theorem binary_yes_no_coercion (raw : RawDict) (binary : List String)
    (f : String) (hb : f ∈ binary) :
    (lookupR raw f = some (RawValue.str "Yes") → featureValue raw binary f = 1) ∧
    (lookupR raw f = some (RawValue.str "No") → featureValue raw binary f = 0) ∧
    assembleRow [("age", RawValue.num 70), ("beta_blocker_use", RawValue.str "Yes")]
      ["age", "beta_blocker_use"] ["beta_blocker_use"] = [70, 1] := by
  refine ⟨fun h => ?_, fun h => ?_, by decide⟩ <;>
    simp [featureValue, coerceFeat, hb, h, coerceBinary]

theorem binary_yes_no_coercion_witness :
    ("beta_blocker_use" ∈ ["beta_blocker_use"]) ∧
    featureValue [("beta_blocker_use", RawValue.str "Yes")] ["beta_blocker_use"]
      "beta_blocker_use" = 1 :=
  ⟨by decide,
    (binary_yes_no_coercion [("beta_blocker_use", RawValue.str "Yes")]
      ["beta_blocker_use"] "beta_blocker_use" (by decide)).1 (by decide)⟩

/-- Claim C6: a continuous feature whose raw value is a string that does
not parse as a number is assembled as 0, and the assembler still returns a
full-length vector — the bad value is never surfaced as an error. -/
theorem continuous_unparsable_defaults_zero (raw : RawDict)
    (order binary : List String) (f s : String)
    (hb : f ∉ binary) (hv : lookupR raw f = some (RawValue.str s))
    (hp : parseDecimal s = none) :
    featureValue raw binary f = 0 ∧
    (assembleRow raw order binary).length = order.length := by
  constructor
  · simp [featureValue, coerceFeat, hb, hv, coerceContinuous, hp]
  · unfold assembleRow
    exact List.length_map _ _

theorem continuous_unparsable_defaults_zero_witness :
    parseDecimal "abc" = none ∧
    (featureValue [("x", RawValue.str "abc")] [] "x" = 0 ∧
      (assembleRow [("x", RawValue.str "abc")] ["x"] []).length = ["x"].length) :=
  ⟨by decide,
    continuous_unparsable_defaults_zero [("x", RawValue.str "abc")] ["x"] []
      "x" "abc" (by decide) (by decide) (by decide)⟩

/-- Claim C7: on the empty raw input mapping every feature is absent, and
the assembled vector is the all-defaults vector: 0 for every feature, in
schema order. -/
theorem empty_inputs_all_defaults (order binary : List String) :
    assembleRow [] order binary = order.map (fun _ => (0 : ℚ)) := by
  rw [assembleRow_eq_map]
  exact List.map_congr_left (fun f _ => featureValue_nil binary f)

/-- Claim C8: every probability the scorer returns lies in `[0, 1]` on both
paths, provided the model's own probability interface produces values in
`[0, 1]`; in particular the sigmoid fallback value lies in `[0, 1]` for
every real decision score. -/
theorem score_probability_in_unit_interval (m : SModel) (v : List ℝ) (p : ℝ)
    (hm : ∀ w q, m.predict_proba w = Except.ok q → 0 ≤ q ∧ q ≤ 1)
    (hp : score m v = Except.ok p) :
    (0 ≤ p ∧ p ≤ 1) ∧ ∀ x : ℝ, 0 ≤ sigmoid x ∧ sigmoid x ≤ 1 := by
  refine ⟨?_, sigmoid_mem_unit⟩
  cases hpp : m.predict_proba v with
  | ok q =>
    simp only [score, hpp] at hp
    injection hp with hqp
    subst hqp
    exact hm v _ hpp
  | error e =>
    cases hdf : m.decision_function with
    | some df =>
      simp only [score, hpp, hdf] at hp
      injection hp with hqp
      subst hqp
      exact sigmoid_mem_unit _
    | none =>
      simp [score, hpp, hdf] at hp

theorem score_probability_in_unit_interval_witness :
    (0 ≤ (1 : ℝ) / 2 ∧ (1 : ℝ) / 2 ≤ 1) ∧
    (0 ≤ sigmoid 0 ∧ sigmoid 0 ≤ 1) :=
  ⟨(score_probability_in_unit_interval cmOk [0] (1 / 2)
      (fun w q h => by injection h with h; subst h; norm_num) rfl).1,
    (score_probability_in_unit_interval cmOk [0] (1 / 2)
      (fun w q h => by injection h with h; subst h; norm_num) rfl).2 0⟩

/-- Claim C9: assembly is deterministic — equal raw inputs assemble to
equal vectors over the same schema. -/
theorem assembly_deterministic (r1 r2 : RawDict) (order binary : List String)
    (h : r1 = r2) :
    assembleRow r1 order binary = assembleRow r2 order binary := by
  rw [h]

theorem assembly_deterministic_witness :
    ([] : RawDict) = [] ∧
    assembleRow [] ["age"] [] = assembleRow [] ["age"] [] :=
  ⟨rfl, assembly_deterministic [] [] ["age"] [] rfl⟩

/-- Claim C10: the default-filling pass never overwrites a supplied value —
any feature bound in the raw inputs keeps its binding — and it writes the
zero default exactly for the schema features absent from the inputs. -/
theorem setdefault_never_overwrites (raw : RawDict) (order : List String)
    (f : String) (v : RawValue) (h : lookupR raw f = some v) :
    lookupR (fillDefaults raw order) f = some v ∧
    ∀ g ∈ order, lookupR raw g = none →
      lookupR (fillDefaults raw order) g = some (RawValue.num 0) :=
  ⟨lookupR_fillDefaults_of_some order h,
    fun _ hg hn => lookupR_fillDefaults_of_none_mem order hg hn⟩

theorem setdefault_never_overwrites_witness :
    lookupR [("age", RawValue.num 7)] "age" = some (RawValue.num 7) ∧
    (lookupR (fillDefaults [("age", RawValue.num 7)] ["age", "x"]) "age" =
        some (RawValue.num 7) ∧
      ∀ g ∈ ["age", "x"], lookupR [("age", RawValue.num 7)] g = none →
        lookupR (fillDefaults [("age", RawValue.num 7)] ["age", "x"]) g =
          some (RawValue.num 0)) :=
  ⟨by decide,
    setdefault_never_overwrites [("age", RawValue.num 7)] ["age", "x"] "age"
      (RawValue.num 7) (by decide)⟩

/-- Claim C3, counterexample: a model whose probability call fails with a
runtime failure that is not a missing capability still gets the sigmoid
fallback from the scorer — the failure is converted, not propagated. -/
theorem score_fallback_on_runtime_failure :
    cmBad.predict_proba [1] = Except.error PredictErr.runtimeFailure ∧
    score cmBad [1] = Except.ok (sigmoid 0) ∧
    score cmBad [1] ≠ Except.error ScoreErr.noDecisionFunction :=
  ⟨rfl, rfl, fun h => Except.noConfusion h⟩

/-- Claim C3, amended: the scorer falls back to the decision-score sigmoid
on ANY failure of the probability call, capability missing or not; the
only error it propagates is the fallback interface itself being absent. -/
theorem score_fallback_on_any_predict_error (m : SModel) (v : List ℝ)
    (e : PredictErr) (h : m.predict_proba v = Except.error e) :
    (∀ df, m.decision_function = some df →
      score m v = Except.ok (sigmoid (df v))) ∧
    (m.decision_function = none →
      score m v = Except.error ScoreErr.noDecisionFunction) := by
  constructor
  · intro df hdf
    simp [score, h, hdf]
  · intro hdf
    simp [score, h, hdf]

theorem score_fallback_on_any_predict_error_witness :
    cmBad.predict_proba [1] = Except.error PredictErr.runtimeFailure ∧
    score cmBad [1] = Except.ok (sigmoid 0) :=
  ⟨rfl,
    (score_fallback_on_any_predict_error cmBad [1] PredictErr.runtimeFailure
      rfl).1 (fun _ => 0) rfl⟩

end IABP
